import Mathlib

/-
Verification development for the city-area-randomizer repository
(scripts/build_top10.py and scripts/smoke_test.py), as a shallow embedding:
strings are Lean String values (lists of Char), CSV cell values are
Option String (none models a missing cell / pandas NaN / Python None),
tables are lists of rows, and the two scripts' pure data transformations
are translated function by function.

Modelling notes on library primitives used by the scripts:
* Python str.strip() strips Unicode whitespace; the embedding uses the
  whitespace set {space, tab, LF, CR, VT, FF, NBSP, ideographic space},
  which covers every character the data and the spec exercise, and the
  same set is used for the re.sub(r"\s+", " ") collapse so the model is
  internally consistent.
* Python float() parsing is modelled as exact decimal parsing (optional
  sign, digits with one optional point, optional exponent, surrounding
  whitespace); int(float(v)) truncates toward zero.  IEEE rounding of
  17+ significant digits, underscore digit grouping, non-ASCII digit
  forms and inf/nan spellings are not modelled; for inf/nan/overflow the
  script's int() coercion raises and the bare except returns 0, which
  coincides with the model's parse-failure branch, so to_int's observable
  value agrees on those spellings as well.
* pandas read_csv and the filesystem are outside the program text; a CSV
  file is abstracted as `Option Table` (none = fails to parse under the
  configured encoding/header settings), with the column-presence check
  taken literally from the script.
-/

/-- Whitespace set used for str.strip() and for the `\s` class of
re.sub in the scripts (see modelling notes above). -/
def isPySpace (c : Char) : Bool :=
  (c.toNat == 32) || (c.toNat == 9) || (c.toNat == 10) || (c.toNat == 13) ||
  (c.toNat == 11) || (c.toNat == 12) || (c.toNat == 160) || (c.toNat == 0x3000)

/-- Drop a maximal whitespace suffix (right half of str.strip()). -/
def dropTrailWs : List Char → List Char
  | [] => []
  | c :: cs =>
    match dropTrailWs cs with
    | [] => if isPySpace c then [] else [c]
    | r => c :: r

/-- str.strip() on the character list. -/
def pyStripChars (l : List Char) : List Char :=
  dropTrailWs (l.dropWhile isPySpace)

/-- str.strip() on strings. -/
def pyStrip (x : String) : String :=
  String.mk (pyStripChars x.data)

/-- The string half of build_top10.s: strip, then map the lone dash
glyphs "-", "—", "ｰ" to the empty string. -/
def sStr (v : String) : String :=
  let t := pyStrip v
  if t = "-" ∨ t = "—" ∨ t = "ｰ" then "" else t

/-- build_top10.s : None / NaN become "", strings are stripped and the
dash glyphs are mapped to "". -/
def s (v : Option String) : String :=
  match v with
  | none => ""
  | some x => sStr x

/-- v.replace(",", "") on the character list. -/
def stripCommas (l : List Char) : List Char :=
  l.filter (fun c => !(c == ','))

/-- ASCII decimal digit (the digits float() accepts in the modelled
grammar). -/
def isAsciiDigit (c : Char) : Bool :=
  decide (48 ≤ c.toNat ∧ c.toNat ≤ 57)

/-- Consume a maximal run of ASCII digits, returning accumulated value,
count of digits consumed, and the rest. -/
def takeDigitsGo : List Char → Nat → Nat → Nat × Nat × List Char
  | [], v, n => (v, n, [])
  | c :: cs, v, n =>
    if isAsciiDigit c then takeDigitsGo cs (v * 10 + (c.toNat - 48)) (n + 1)
    else (v, n, c :: cs)

/-- Entry point for digit-run consumption. -/
def takeDigits (l : List Char) : Nat × Nat × List Char :=
  takeDigitsGo l 0 0

/-- Optional sign: returns (isNegative, rest). -/
def parseSign : List Char → Bool × List Char
  | '-' :: cs => (true, cs)
  | '+' :: cs => (false, cs)
  | cs => (false, cs)

/-- Optional exponent suffix after the mantissa; the input must be fully
consumed.  Result: (mantissa, power-of-ten scale). -/
def parseExp (m : Nat) (sc : Int) : List Char → Option (Nat × Int)
  | [] => some (m, sc)
  | c :: r =>
    if c = 'e' ∨ c = 'E' then
      let sr := parseSign r
      let dr := takeDigits sr.2
      if dr.2.1 = 0 ∨ dr.2.2 ≠ [] then none
      else some (m, sc + (if sr.1 then -(dr.1 : Int) else (dr.1 : Int)))
    else none

/-- Mantissa: digits with an optional single point (at least one digit
overall), then the optional exponent. -/
def parseBody (cs : List Char) : Option (Nat × Int) :=
  let ir := takeDigits cs
  match ir.2.2 with
  | '.' :: r2 =>
    let fr := takeDigits r2
    if ir.2.1 + fr.2.1 = 0 then none
    else parseExp (ir.1 * 10 ^ fr.2.1 + fr.1) (-(fr.2.1 : Int)) fr.2.2
  | _ => if ir.2.1 = 0 then none else parseExp ir.1 0 ir.2.2

/-- The modelled float() literal parser: strip whitespace, optional
sign, mantissa, optional exponent.  Result: (negative, mantissa, scale)
denoting (-1)^negative * mantissa * 10^scale. -/
def pyFloatParse (x : String) : Option (Bool × Nat × Int) :=
  let cs := pyStripChars x.data
  let sr := parseSign cs
  match parseBody sr.2 with
  | none => none
  | some (m, sc) => some (sr.1, m, sc)

/-- int(float(_)) on a successfully parsed value: truncation toward
zero (magnitude division, then sign). -/
def truncScaled (r : Bool × Nat × Int) : Int :=
  let mag : Nat := if 0 ≤ r.2.2 then r.2.1 * 10 ^ r.2.2.toNat else r.2.1 / 10 ^ (-r.2.2).toNat
  if r.1 then -(mag : Int) else (mag : Int)

/-- The body of build_top10.to_int after the initial s(): empty → 0,
remove commas, int(float(_)) with the bare except returning 0. -/
def toIntOfStr (t : String) : Int :=
  if t = "" then 0
  else
    match pyFloatParse (String.mk (stripCommas t.data)) with
    | none => 0
    | some r => truncScaled r

/-- build_top10.to_int. -/
def to_int (v : Option String) : Int :=
  toIntOfStr (s v)

/-- Does `pat` occur as a prefix of `hay`? -/
def charsPrefix : List Char → List Char → Bool
  | [], _ => true
  | _ :: _, [] => false
  | p :: ps, c :: cs => (p == c) && charsPrefix ps cs

/-- Does `pat` occur as a substring of `hay` (Python `pat in hay`)? -/
def containsChars (pat : List Char) : List Char → Bool
  | [] => charsPrefix pat []
  | c :: t => charsPrefix pat (c :: t) || containsChars pat t

/-- Python `pat in hay` on strings. -/
def containsStr (hay pat : String) : Bool :=
  containsChars pat.data hay.data

/-- str.endswith(suf). -/
def strEndsWith (x suf : String) : Bool :=
  charsPrefix suf.data.reverse x.data.reverse

/-- The `\d` class of the script's RE_AGG_1 pattern (Unicode decimal
digits; ASCII and fullwidth forms cover the data). -/
def isReDigit (c : Char) : Bool :=
  decide (48 ≤ c.toNat ∧ c.toNat ≤ 57) || decide (0xFF10 ≤ c.toNat ∧ c.toNat ≤ 0xFF19)

/-- Does RE_AGG_1 = 町丁字コード\d+の計 match at the head of `cs`? -/
def agg1At (cs : List Char) : Bool :=
  let pat := "町丁字コード".data
  charsPrefix pat cs &&
    (let r := cs.drop pat.length
     let n := (r.takeWhile isReDigit).length
     decide (0 < n) && charsPrefix "の計".data (r.drop n))

/-- RE_AGG_1.search: does the pattern match anywhere? -/
def reAgg1Search : List Char → Bool
  | [] => agg1At []
  | c :: t => agg1At (c :: t) || reAgg1Search t

/-- build_top10.is_aggregate_row: summary/total-row detector.  The
branches mirror the script in order: empty after s(), contains
町丁字コード, RE_AGG_1 search, RE_BAD = (総数|不詳) search, and
RE_AGG_2 = (?:^|.*)(の計|計)$ which holds exactly when the string ends
with 計. -/
def is_aggregate_row (name : String) : Bool :=
  let n := sStr name
  if n = "" then true
  else if containsStr n ("町丁字コード") then true
  else if reAgg1Search n.data then true
  else if containsStr n ("総数") || containsStr n ("不詳") then true
  else if strEndsWith n ("計") then true
  else false

/-- One guarded prefix removal, as in
`if x.startswith(tok): x = x.replace(tok, "", 1).strip()` (the first
occurrence of tok is its occurrence at position 0). -/
def stripLeadToken (tok : String) (x : String) : String :=
  if charsPrefix tok.data x.data then pyStrip (String.mk (x.data.drop tok.data.length)) else x

/-- The broader fragment after build_top10.normalize_place_name's
optional prefix stripping: 大字 first, then 字 on the result. -/
def fragA (x : String) (strip_oaza : Bool) : String :=
  if strip_oaza then stripLeadToken ("字") (stripLeadToken ("大字") (sStr x)) else sStr x

/-- The finer fragment after the optional 字 prefix stripping. -/
def fragB (x : String) (strip_oaza : Bool) : String :=
  if strip_oaza then stripLeadToken ("字") (sStr x) else sStr x

/-- re.sub(r"\s+", " ", _): collapse each maximal whitespace run to one
space.  The Bool argument records whether the previous character was
part of a run already emitted. -/
def collapseGo (prevWs : Bool) : List Char → List Char
  | [] => []
  | c :: cs =>
    if isPySpace c then
      if prevWs then collapseGo true cs else ' ' :: collapseGo true cs
    else c :: collapseGo false cs

/-- The final whitespace normalisation of normalize_place_name:
re.sub(r"\s+", " ", name).strip(). -/
def wsNormalize (x : String) : String :=
  pyStrip (String.mk (collapseGo false x.data))

/-- build_top10.normalize_place_name. -/
def normalize_place_name (oaza_machi aza_chome : String) (strip_oaza : Bool) : String :=
  if sStr oaza_machi = "" ∧ sStr aza_chome = "" then ""
  else
    let a := fragA oaza_machi strip_oaza
    let b := fragB aza_chome strip_oaza
    let name := if a ≠ "" ∧ b ≠ "" then pyStrip (a ++ " " ++ b) else if a ≠ "" then a else b
    wsNormalize name

/-- No two adjacent whitespace characters (the "no run of more than
one whitespace character" property). -/
def noTwoWs : List Char → Bool
  | [] => true
  | [_] => true
  | a :: b :: t => (!(isPySpace a && isPySpace b)) && noTwoWs (b :: t)

/-- The first character, if any, is not whitespace. -/
def headNotWsB : List Char → Bool
  | [] => true
  | c :: _ => !isPySpace c

/-- The last character, if any, is not whitespace. -/
def lastNotWsB : List Char → Bool
  | [] => true
  | [c] => !isPySpace c
  | _ :: b :: t => lastNotWsB (b :: t)

/-- One CSV row, projected to the seven columns the script reads; a
field is none when the cell is missing or NaN. -/
structure Row where
  pref? : Option String
  city? : Option String
  oaza? : Option String
  aza? : Option String
  total? : Option String
  level? : Option String
  choCode? : Option String
deriving DecidableEq

/-- Aggregation key: (prefecture, municipality, display name). -/
abbrev Key := String × String × String

/-- The per-row body of build_top10.main's loop: returns the key and
parsed population of an accepted row, or none when any of the drop
rules fires (in the script's order). -/
def processRow (strip_oaza keep_level4 : Bool) (row : Row) : Option (Key × Int) :=
  let pref := s row.pref?
  let city := s row.city?
  let level := s row.level?
  let cho_code := s row.choCode?
  let lvl := to_int (some level)
  if lvl ≤ 2 then none
  else if keep_level4 = false ∧ 4 ≤ lvl then none
  else if cho_code = "" then none
  else
    let oaza := s row.oaza?
    let aza := s row.aza?
    let name := normalize_place_name oaza aza strip_oaza
    if is_aggregate_row name = true ∨ is_aggregate_row oaza = true ∨ is_aggregate_row aza = true then none
    else
      let pop := to_int row.total?
      if pop ≤ 0 then none
      else if pref = "" ∨ city = "" ∨ name = "" then none
      else some ((pref, city, name), pop)

/-- defaultdict(int) update `bucket[key] += pop`: add into the existing
entry (keeping its position, i.e. first-insertion order), else append. -/
def bucketAdd (b : List (Key × Int)) (k : Key) (p : Int) : List (Key × Int) :=
  match b with
  | [] => [(k, p)]
  | (k', p') :: rest => if k' = k then (k', p' + p) :: rest else (k', p') :: bucketAdd rest k p

/-- One accepted-or-dropped row folded into the bucket. -/
def stepRow (strip_oaza keep_level4 : Bool) (b : List (Key × Int)) (row : Row) : List (Key × Int) :=
  match processRow strip_oaza keep_level4 row with
  | none => b
  | some kp => bucketAdd b kp.1 kp.2

/-- The row loop over one stream of rows. -/
def foldRows (strip_oaza keep_level4 : Bool) (b : List (Key × Int)) (rows : List Row) : List (Key × Int) :=
  rows.foldl (stepRow strip_oaza keep_level4) b

/-- defaultdict(int) lookup: 0 when the key is absent. -/
def lookupBucket : List (Key × Int) → Key → Int
  | [], _ => 0
  | (k', p) :: rest, k => if k' = k then p else lookupBucket rest k

/-- A parsed CSV table: its column names and its rows. -/
structure Table where
  cols : List String
  rows : List Row
deriving DecidableEq

/-- A CSV file as the script sees it: none when pd.read_csv raises
under the configured encoding/header settings. -/
abbrev CsvFile := Option Table

/-- The seven required column names. -/
def needCols : List String :=
  ["都道府県名", "市区町村名", "大字・町名", "字・丁目名", "総数", "地域階層レベル", "町丁字コード"]

/-- A file is usable when it parses and all seven required columns are
present (`all(c in df.columns for c in need_cols)`). -/
def usable : CsvFile → Bool
  | none => false
  | some t => needCols.all (fun c => t.cols.contains c)

/-- The rows a file contributes to the aggregation. -/
def rowsOfUsable : CsvFile → List Row
  | none => []
  | some t => if needCols.all (fun c => t.cols.contains c) then t.rows else []

/-- Running counters and bucket of the file loop. -/
structure IngestResult where
  used : Nat
  skipped : Nat
  bucket : List (Key × Int)
deriving DecidableEq

/-- One iteration of the file loop: unparseable and column-lacking
files are skipped (counted); otherwise the file's rows are folded in. -/
def ingestStep (strip_oaza keep_level4 : Bool) (acc : IngestResult) (f : CsvFile) : IngestResult :=
  match f with
  | none => ⟨acc.used, acc.skipped + 1, acc.bucket⟩
  | some t =>
    if needCols.all (fun c => t.cols.contains c) then
      ⟨acc.used + 1, acc.skipped, foldRows strip_oaza keep_level4 acc.bucket t.rows⟩
    else ⟨acc.used, acc.skipped + 1, acc.bucket⟩

/-- The whole file loop. -/
def ingest (strip_oaza keep_level4 : Bool) (files : List CsvFile) : IngestResult :=
  files.foldl (ingestStep strip_oaza keep_level4) ⟨0, 0, []⟩

/-- defaultdict(list) update `city_map[(pref, city)].append(item)`. -/
def groupAdd (m : List ((String × String) × List (String × Int))) (k : String × String)
    (it : String × Int) : List ((String × String) × List (String × Int)) :=
  match m with
  | [] => [(k, [it])]
  | (k', its) :: rest => if k' = k then (k', its ++ [it]) :: rest else (k', its) :: groupAdd rest k it

/-- Partition the bucket by municipality, keeping both the bucket's
key order and, within a municipality, the bucket's item order. -/
def buildCityMap (bucket : List (Key × Int)) : List ((String × String) × List (String × Int)) :=
  bucket.foldl (fun m e => groupAdd m (e.1.1, e.1.2.1) (e.1.2.2, e.2)) []

/-- Stable insertion into a population-descending list: the new item
goes after every item with population ≥ its own. -/
def insertDesc (x : String × Int) : List (String × Int) → List (String × Int)
  | [] => [x]
  | y :: ys => if x.2 > y.2 then x :: y :: ys else y :: insertDesc x ys

/-- items.sort(key=lambda x: x[1], reverse=True): Python's sort is
stable, also under reverse=True, so the sorted list is the unique
stable population-descending reordering, modelled by left-to-right
stable insertion. -/
def sortDesc (l : List (String × Int)) : List (String × Int) :=
  l.foldl (fun acc x => insertDesc x acc) []

/-- One municipality entry of the output document. -/
structure Entry where
  pref : String
  city : String
  areas : List (String × Int)
deriving DecidableEq

/-- Python dict assignment `out[key] = entry`: overwrite the value of
an existing key in place, else append. -/
def outInsert (out : List (String × Entry)) (k : String) (e : Entry) : List (String × Entry) :=
  match out with
  | [] => [(k, e)]
  | (k', e') :: rest => if k' = k then (k', e) :: rest else (k', e') :: outInsert rest k e

/-- dict lookup on the output document / any string-keyed assoc list. -/
def lookupEntry : List (String × Entry) → String → Option Entry
  | [], _ => none
  | (k', e) :: rest, k => if k' = k then some e else lookupEntry rest k

/-- The output-building loop: per municipality, sort by population
descending (stable), truncate to topn, store under "pref::city". -/
def buildOut (topn : Nat) (cm : List ((String × String) × List (String × Int))) :
    List (String × Entry) :=
  cm.foldl (fun out g =>
    outInsert out (g.1.1 ++ "::" ++ g.1.2) ⟨g.1.1, g.1.2, (sortDesc g.2).take topn⟩) []

/-- build_top10.main after argument parsing, with file writing (glue)
omitted: fatal when no file matched the glob, fatal when no file was
used, otherwise the output document. -/
def runMain (strip_oaza keep_level4 : Bool) (topn : Nat) (files : List CsvFile) :
    Except String (List (String × Entry)) :=
  if files = [] then Except.error "CSVが見つからない。data/ 配下にCSVがあるか確認してね。"
  else
    let r := ingest strip_oaza keep_level4 files
    if r.used = 0 then Except.error "有効なCSVが1件も読めなかった。header行/encodingが違う可能性あり。"
    else Except.ok (buildOut topn (buildCityMap r.bucket))

/-- Is the run fatal (raised) rather than completed? -/
def resultFatal {α : Type} : Except String α → Bool
  | Except.error _ => true
  | Except.ok _ => false

/-- smoke_test index update `index.setdefault(city, []).append(code)`. -/
def indexAppend (idx : List (String × List String)) (city code : String) :
    List (String × List String) :=
  match idx with
  | [] => [(city, [code])]
  | (c', l) :: rest => if c' = city then (c', l ++ [code]) :: rest else (c', l) :: indexAppend rest city code

/-- smoke_test.main's index: municipality name → list of composite
keys, built over the document in order, skipping empty city names. -/
def buildIndex (data : List (String × Entry)) : List (String × List String) :=
  data.foldl (fun idx e => if e.2.city = "" then idx else indexAppend idx e.2.city e.1) []

/-- index.get(q). -/
def lookupIdx : List (String × List String) → String → Option (List String)
  | [], _ => none
  | (c, l) :: rest, q => if c = q then some l else lookupIdx rest q

/-- Outcome of one query iteration of smoke_test.main (the random
sampling and printing are glue and not modelled). -/
inductive QueryOut where
  | found : String → Option Entry → QueryOut
  | suggestions : List String → QueryOut
  | notFound : QueryOut
deriving DecidableEq

/-- One query against the document: exact match returns the first
associated code's entry; otherwise substring candidates (first 20) or
a not-found message. -/
def queryStep (data : List (String × Entry)) (q : String) : QueryOut :=
  let idx := buildIndex data
  match lookupIdx idx q with
  | some (code :: _) => QueryOut.found code (lookupEntry data code)
  | _ =>
    let cands := (idx.map (fun e => e.1)).filter (fun k => containsStr k q)
    if cands = [] then QueryOut.notFound else QueryOut.suggestions (cands.take 20)

/-- The candidate list of the no-exact-match branch, by itself. -/
def candidatesOf (data : List (String × Entry)) (q : String) : List String :=
  ((buildIndex data).map (fun e => e.1)).filter (fun k => containsStr k q)

/-- The concrete row of the spec's Kumagaya example: the finer
fragment is the second argument. -/
def c1Row (popv azav : String) : Row :=
  ⟨some ("Saitama"), some ("Kumagaya-shi"), some ("大字的場"), some azav, some popv, some ("3"), some ("0001")⟩

/-- A single-file input holding the two Kumagaya example rows. -/
def c1File (azav : String) : CsvFile :=
  some ⟨needCols, [c1Row ("1,000") azav, c1Row ("500") azav]⟩

/-- A file that parses but lacks every required column. -/
def emptyColsFile : CsvFile :=
  some ⟨[], []⟩

/-- A concrete municipality-level row (region hierarchy level 1). -/
def levelOneRow : Row :=
  ⟨some ("東京都"), some ("新宿区"), some ("西新宿"), some ("二丁目"), some ("100"), some ("1"), some ("0002")⟩

/-- The entry the Kumagaya example produces. -/
def c1Entry : Entry :=
  ⟨"Saitama", "Kumagaya-shi", [("的場", 1500)]⟩

/-- The document the Kumagaya example produces. -/
def c1Doc : List (String × Entry) :=
  [("Saitama::Kumagaya-shi", c1Entry)]


/-- C1 (counterexample): at the exact input the claim describes — two
level-3 rows for Saitama/Kumagaya-shi with broader fragment 大字的場
(romanised Ōaza-Tekiba), an EMPTY finer fragment, a non-empty area
code and populations "1,000" and "500", prefix-stripping on — each row
is discarded (is_aggregate_row of the empty finer fragment is true),
so the run's output document is empty: no aggregated 的場 (Tekiba)
entry exists, contradicting the claim. -/
theorem claim_C1_cex :
    processRow true false (c1Row ("1,000") ("")) = none
  ∧ runMain true false 10 [c1File ("")] = Except.ok [] :=
  ⟨rfl, rfl⟩

/-- C1 (amended): with prefix-stripping enabled, two rows that both
have prefecture Saitama, municipality Kumagaya-shi, broader fragment
大字的場 (Ōaza-Tekiba), finer fragment the bare marker 字 (which
prefix-stripping removes from the display name; an empty finer
fragment would instead discard the rows), level 3, a non-empty area
code and populations "1,000" and "500" yield an aggregated entry with
display name 的場 (Tekiba) and population 1500 in the output for that
municipality. -/
theorem claim_C1 :
    runMain true false 10 [c1File ("字")]
      = Except.ok [("Saitama::Kumagaya-shi", ⟨"Saitama", "Kumagaya-shi", [("的場", 1500)]⟩)]
  ∧ lookupBucket (ingest true false [c1File ("字")]).bucket ("Saitama", "Kumagaya-shi", "的場") = 1500 :=
  ⟨rfl, by decide⟩

/-- C2: every row with region level ≤ 2, or level ≥ 4 with the
keep-finer option off, or an empty area code after normalization, or a
display name or raw fragment matching a summary pattern (or empty), or
parsed population ≤ 0, or missing prefecture/municipality/display
name, is mapped to none by the row classifier, and folding the row
stream over the aggregation map gives the same bucket as if the row
were absent. -/
theorem claim_C2 : ∀ (st kp : Bool) (row : Row),
    (to_int (some (s row.level?)) ≤ 2
      ∨ (kp = false ∧ 4 ≤ to_int (some (s row.level?)))
      ∨ s row.choCode? = ""
      ∨ is_aggregate_row (normalize_place_name (s row.oaza?) (s row.aza?) st) = true
      ∨ is_aggregate_row (s row.oaza?) = true
      ∨ is_aggregate_row (s row.aza?) = true
      ∨ to_int row.total? ≤ 0
      ∨ s row.pref? = "" ∨ s row.city? = ""
      ∨ normalize_place_name (s row.oaza?) (s row.aza?) st = "") →
    processRow st kp row = none
      ∧ ∀ (b : List (Key × Int)) (pre post : List Row),
          foldRows st kp b (pre ++ row :: post) = foldRows st kp b (pre ++ post) := by
  intro st kp row h
  have hnone : processRow st kp row = none := by
    simp only [processRow]
    split_ifs with h1 h2 h3 h4 h5 h6
    · rfl
    · rfl
    · rfl
    · rfl
    · rfl
    · rfl
    · rcases h with h|h|h|h|h|h|h|h|h|h
      · exact absurd h h1
      · exact absurd h h2
      · exact absurd h h3
      · exact absurd (Or.inl h) h4
      · exact absurd (Or.inr (Or.inl h)) h4
      · exact absurd (Or.inr (Or.inr h)) h4
      · exact absurd h h5
      · exact absurd (Or.inl h) h6
      · exact absurd (Or.inr (Or.inl h)) h6
      · exact absurd (Or.inr (Or.inr h)) h6
  refine ⟨hnone, ?_⟩
  intro b pre post
  simp [foldRows, List.foldl_append, stepRow, hnone]

/-- C2 witness: a concrete level-1 row is dropped and contributes
nothing wherever it sits in the row stream. -/
theorem claim_C2_witness :
    processRow true false levelOneRow = none
  ∧ ∀ (b : List (Key × Int)) (pre post : List Row),
      foldRows true false b (pre ++ levelOneRow :: post) = foldRows true false b (pre ++ post) :=
  claim_C2 true false levelOneRow (Or.inl (by decide))

theorem lookupBucket_bucketAdd (b : List (Key × Int)) (k' k : Key) (p : Int) :
    lookupBucket (bucketAdd b k' p) k = lookupBucket b k + (if k' = k then p else 0) := by
  induction b with
  | nil =>
    simp only [bucketAdd, lookupBucket]
    by_cases h : k' = k
    · simp [h]
    · simp [h]
  | cons hd tl ih =>
    obtain ⟨k0, p0⟩ := hd
    simp only [bucketAdd]
    by_cases h0 : k0 = k'
    · subst h0
      simp only [if_pos rfl, lookupBucket]
      by_cases hk : k0 = k
      · simp [hk]
      · simp [hk]
    · simp only [if_neg h0, lookupBucket]
      by_cases hk : k0 = k
      · have hk' : k' ≠ k := fun he => h0 (hk.trans he.symm)
        simp [hk, hk']
      · simp [hk, ih]

theorem lookupBucket_foldRows (st kp : Bool) (rows : List Row) : ∀ (b : List (Key × Int)) (k : Key),
    lookupBucket (foldRows st kp b rows) k
      = lookupBucket b k
        + (((rows.filterMap (processRow st kp)).filter (fun e => decide (e.1 = k))).map
            (fun e => e.2)).sum := by
  induction rows with
  | nil => intro b k; simp [foldRows]
  | cons r rs ih =>
    intro b k
    simp only [foldRows, List.foldl_cons] at ih ⊢
    rw [ih (stepRow st kp b r) k]
    cases hr : processRow st kp r with
    | none => simp [stepRow, hr, List.filterMap_cons]
    | some kpv =>
      simp only [stepRow, hr, List.filterMap_cons, List.filter_cons]
      rw [lookupBucket_bucketAdd]
      by_cases hk : kpv.1 = k
      · simp [hk]
        ring
      · simp [hk]

theorem ingest_used (st kp : Bool) : ∀ (files : List CsvFile) (acc : IngestResult),
    (List.foldl (ingestStep st kp) acc files).used = acc.used + (files.filter usable).length := by
  intro files
  induction files with
  | nil => intro acc; simp
  | cons f fs ih =>
    intro acc
    simp only [List.foldl_cons, ih, List.filter_cons]
    cases f with
    | none => simp [ingestStep, usable]
    | some t =>
      by_cases h : needCols.all (fun c => t.cols.contains c)
      · simp only [ingestStep, usable, h, if_pos]
        simp [h]
        omega
      · simp only [ingestStep, usable, h, if_neg]
        simp [h]

theorem ingest_skipped (st kp : Bool) : ∀ (files : List CsvFile) (acc : IngestResult),
    (List.foldl (ingestStep st kp) acc files).skipped
      = acc.skipped + (files.filter (fun f => !usable f)).length := by
  intro files
  induction files with
  | nil => intro acc; simp
  | cons f fs ih =>
    intro acc
    simp only [List.foldl_cons, ih, List.filter_cons]
    cases f with
    | none =>
      simp [ingestStep, usable]
      omega
    | some t =>
      by_cases h : needCols.all (fun c => t.cols.contains c)
      · simp only [ingestStep, usable, h, if_pos]
        simp [h]
      · simp only [ingestStep, usable, h, if_neg]
        simp [h]
        omega

theorem ingest_bucket (st kp : Bool) : ∀ (files : List CsvFile) (acc : IngestResult),
    (List.foldl (ingestStep st kp) acc files).bucket
      = foldRows st kp acc.bucket ((files.map rowsOfUsable).flatten) := by
  intro files
  induction files with
  | nil => intro acc; simp [foldRows]
  | cons f fs ih =>
    intro acc
    simp only [List.foldl_cons, ih, List.map_cons, List.flatten_cons]
    cases f with
    | none => simp [ingestStep, rowsOfUsable]
    | some t =>
      by_cases h : needCols.all (fun c => t.cols.contains c)
      · simp only [ingestStep, rowsOfUsable, h, if_pos]
        simp [foldRows, List.foldl_append]
      · simp only [ingestStep, rowsOfUsable, h, if_neg]
        simp [h]

/-- C5: over any file list, exactly the files that fail to parse under
the configured settings or lack some of the seven required columns are
skipped (their count is the number of such files), the used counter is
the number of remaining files, and the aggregation bucket is exactly
the row loop run over the concatenated rows of the non-skipped files
(processing continues across skipped files). -/
theorem claim_C5 : ∀ (st kp : Bool) (files : List CsvFile),
    (ingest st kp files).skipped = (files.filter (fun f => !usable f)).length
  ∧ (ingest st kp files).used = (files.filter usable).length
  ∧ (ingest st kp files).bucket = foldRows st kp [] ((files.map rowsOfUsable).flatten) := by
  intro st kp files
  refine ⟨?_, ?_, ?_⟩
  · rw [ingest, ingest_skipped]
    simp
  · rw [ingest, ingest_used]
    simp
  · rw [ingest, ingest_bucket]

/-- C3: for every aggregation key, the population recorded in the
bucket after processing all input files equals the exact integer sum
of the parsed populations of all accepted rows mapping to that key,
across all usable files' row streams (summed, never overwritten). -/
theorem claim_C3 : ∀ (st kp : Bool) (files : List CsvFile) (k : Key),
    lookupBucket (ingest st kp files).bucket k
      = (((((files.map rowsOfUsable).flatten).filterMap (processRow st kp)).filter
            (fun e => decide (e.1 = k))).map (fun e => e.2)).sum := by
  intro st kp files k
  rw [ingest, ingest_bucket, lookupBucket_foldRows]
  simp [lookupBucket]

/-- C6 (counterexample): a run whose single input file parses
successfully but lacks the required columns aborts fatally, although
input files matched the glob and a file parsed successfully — so
"aborts iff no file matches or no file parses" is false as stated. -/
theorem claim_C6_cex :
    resultFatal (runMain true false 10 [emptyColsFile]) = true
  ∧ ([emptyColsFile] : List CsvFile) ≠ []
  ∧ ∃ f, f ∈ ([emptyColsFile] : List CsvFile) ∧ f ≠ none := by
  refine ⟨by decide, by decide, emptyColsFile, by decide, by decide⟩

/-- C6 (amended): the transformer aborts fatally iff no input file
matches the glob or no input file is usable (parses AND has all seven
required columns); in every other case it completes with the built
output document (the file writes themselves are glue outside the
model). -/
theorem claim_C6 : ∀ (st kp : Bool) (n : Nat) (files : List CsvFile),
    (resultFatal (runMain st kp n files) = true ↔ (files = [] ∨ files.filter usable = []))
  ∧ (resultFatal (runMain st kp n files) = false →
      runMain st kp n files = Except.ok (buildOut n (buildCityMap (ingest st kp files).bucket))) := by
  intro st kp n files
  have hused : (ingest st kp files).used = (files.filter usable).length := by
    rw [ingest, ingest_used]
    simp
  unfold runMain
  by_cases h1 : files = []
  · simp [h1, resultFatal]
  · rw [if_neg h1]
    by_cases h2 : (ingest st kp files).used = 0
    · rw [if_pos h2]
      rw [hused] at h2
      refine ⟨?_, ?_⟩
      · simp only [resultFatal]
        exact ⟨fun _ => Or.inr (List.length_eq_zero.mp h2), fun _ => trivial⟩
      · intro hco
        simp [resultFatal] at hco
    · rw [if_neg h2]
      rw [hused] at h2
      refine ⟨?_, ?_⟩
      · simp only [resultFatal]
        constructor
        · intro hfa
          simp at hfa
        · intro hor
          rcases hor with h | h
          · exact absurd h h1
          · exact absurd (by simp [h]) h2
      · intro _
        rfl

/-- C6 witness: an empty file list is fatal, by the amended
characterization. -/
theorem claim_C6_witness :
    resultFatal (runMain true false 10 ([] : List CsvFile)) = true :=
  (claim_C6 true false 10 []).1.mpr (Or.inl rfl)

theorem mem_insertDesc (x z : String × Int) : ∀ l, z ∈ insertDesc x l ↔ z = x ∨ z ∈ l := by
  intro l
  induction l with
  | nil => simp [insertDesc]
  | cons y ys ih =>
    simp only [insertDesc]
    by_cases h : x.2 > y.2
    · rw [if_pos h]
      simp only [List.mem_cons]
    · rw [if_neg h]
      simp only [List.mem_cons, ih]
      tauto

theorem insertDesc_pairwise (x : String × Int) : ∀ l,
    List.Pairwise (fun a b : String × Int => b.2 ≤ a.2) l →
    List.Pairwise (fun a b : String × Int => b.2 ≤ a.2) (insertDesc x l) := by
  intro l
  induction l with
  | nil => intro _; simp [insertDesc]
  | cons y ys ih =>
    intro hp
    rw [List.pairwise_cons] at hp
    obtain ⟨hy, hys⟩ := hp
    simp only [insertDesc]
    by_cases h : x.2 > y.2
    · rw [if_pos h]
      rw [List.pairwise_cons]
      refine ⟨?_, List.pairwise_cons.mpr ⟨hy, hys⟩⟩
      intro z hz
      rcases List.mem_cons.mp hz with hz | hz
      · subst hz; omega
      · have := hy z hz; omega
    · rw [if_neg h]
      rw [List.pairwise_cons]
      refine ⟨?_, ih hys⟩
      intro z hz
      rcases (mem_insertDesc x z ys).mp hz with hz | hz
      · subst hz; omega
      · exact hy z hz

theorem sortDesc_go_pairwise : ∀ (l acc : List (String × Int)),
    List.Pairwise (fun a b : String × Int => b.2 ≤ a.2) acc →
    List.Pairwise (fun a b : String × Int => b.2 ≤ a.2)
      (List.foldl (fun acc x => insertDesc x acc) acc l) := by
  intro l
  induction l with
  | nil => intro acc h; simpa using h
  | cons x xs ih =>
    intro acc h
    simp only [List.foldl_cons]
    exact ih _ (insertDesc_pairwise x acc h)

theorem sortDesc_pairwise (l : List (String × Int)) :
    List.Pairwise (fun a b : String × Int => b.2 ≤ a.2) (sortDesc l) :=
  sortDesc_go_pairwise l [] (by simp)

theorem insertDesc_filter (x : String × Int) (p : Int) : ∀ l,
    List.Pairwise (fun a b : String × Int => b.2 ≤ a.2) l →
    (insertDesc x l).filter (fun e => decide (e.2 = p))
      = if x.2 = p then l.filter (fun e => decide (e.2 = p)) ++ [x]
        else l.filter (fun e => decide (e.2 = p)) := by
  intro l
  induction l with
  | nil =>
    intro _
    by_cases h : x.2 = p
    · simp [insertDesc, h]
    · simp [insertDesc, h]
  | cons y ys ih =>
    intro hp
    rw [List.pairwise_cons] at hp
    obtain ⟨hy, hys⟩ := hp
    simp only [insertDesc]
    by_cases h : x.2 > y.2
    · rw [if_pos h]
      by_cases hx : x.2 = p
      · rw [if_pos hx]
        have hnil : (y :: ys).filter (fun e : String × Int => decide (e.2 = p)) = [] := by
          rw [List.filter_eq_nil_iff]
          intro z hz
          rcases List.mem_cons.mp hz with hz | hz
          · subst hz; simp; omega
          · have := hy z hz; simp; omega
        rw [hnil]
        rw [List.filter_cons, hnil]
        simp [hx]
      · rw [if_neg hx]
        rw [List.filter_cons]
        simp only [hx, decide_eq_true_eq]
        simp [hx]
    · rw [if_neg h]
      rw [List.filter_cons, List.filter_cons]
      by_cases hyp : y.2 = p
      · by_cases hx : x.2 = p
        · simp [hyp, hx, ih hys]
        · simp [hyp, hx, ih hys]
      · by_cases hx : x.2 = p
        · simp [hyp, hx, ih hys]
        · simp [hyp, hx, ih hys]

theorem sortDesc_go_filter (p : Int) : ∀ (l acc : List (String × Int)),
    List.Pairwise (fun a b : String × Int => b.2 ≤ a.2) acc →
    (List.foldl (fun acc x => insertDesc x acc) acc l).filter (fun e => decide (e.2 = p))
      = acc.filter (fun e => decide (e.2 = p)) ++ l.filter (fun e => decide (e.2 = p)) := by
  intro l
  induction l with
  | nil => intro acc h; simp
  | cons x xs ih =>
    intro acc h
    simp only [List.foldl_cons]
    rw [ih _ (insertDesc_pairwise x acc h)]
    rw [insertDesc_filter x p acc h]
    rw [List.filter_cons]
    by_cases hx : x.2 = p
    · simp [hx]
    · simp [hx]

theorem sortDesc_filter (l : List (String × Int)) (p : Int) :
    (sortDesc l).filter (fun e => decide (e.2 = p)) = l.filter (fun e => decide (e.2 = p)) := by
  have h := sortDesc_go_filter p l [] (by simp)
  simpa [sortDesc] using h

theorem lookupEntry_outInsert (k : String) (e : Entry) : ∀ (out : List (String × Entry)) (k' : String),
    lookupEntry (outInsert out k e) k' = if k = k' then some e else lookupEntry out k' := by
  intro out
  induction out with
  | nil => intro k'; simp [outInsert, lookupEntry]
  | cons he rest ih =>
    obtain ⟨k0, e0⟩ := he
    intro k'
    simp only [outInsert]
    by_cases h0 : k0 = k
    · subst h0
      simp only [if_pos rfl, lookupEntry]
      by_cases hk : k0 = k'
      · simp [hk]
      · simp [hk]
    · rw [if_neg h0]
      simp only [lookupEntry, ih]
      by_cases hk : k0 = k'
      · subst hk
        have hne : ¬ k = k0 := fun hh => h0 hh.symm
        simp [hne]
      · simp [hk]

theorem buildOut_mem (n : Nat) : ∀ (cm : List ((String × String) × List (String × Int)))
    (out0 : List (String × Entry)) (key : String) (e : Entry),
    lookupEntry (List.foldl (fun out g =>
        outInsert out (g.1.1 ++ "::" ++ g.1.2) ⟨g.1.1, g.1.2, (sortDesc g.2).take n⟩) out0 cm) key
      = some e →
    lookupEntry out0 key = some e
      ∨ ∃ g ∈ cm, key = g.1.1 ++ "::" ++ g.1.2 ∧ e = ⟨g.1.1, g.1.2, (sortDesc g.2).take n⟩ := by
  intro cm
  induction cm with
  | nil => intro out0 key e h; exact Or.inl h
  | cons g gs ih =>
    intro out0 key e h
    simp only [List.foldl_cons] at h
    rcases ih _ key e h with h' | ⟨g', hg', hk, he⟩
    · rw [lookupEntry_outInsert] at h'
      by_cases hkey : g.1.1 ++ "::" ++ g.1.2 = key
      · rw [if_pos hkey] at h'
        right
        refine ⟨g, by simp, hkey.symm, ?_⟩
        exact (Option.some_inj.mp h').symm
      · rw [if_neg hkey] at h'
        exact Or.inl h'
    · exact Or.inr ⟨g', List.mem_cons_of_mem g hg', hk, he⟩

/-- C4: every municipality entry of a completed run's output document
has at most topn areas, its populations are non-increasing from first
to last, and it is the topn-truncation of the stable descending sort
of that municipality's accumulated item list — in particular, for each
population value, the areas carrying it appear as a prefix of (hence
in the same relative order as) the items in first-insertion order. -/
theorem claim_C4 : ∀ (st kp : Bool) (n : Nat) (files : List CsvFile)
    (doc : List (String × Entry)) (key : String) (e : Entry),
    runMain st kp n files = Except.ok doc →
    lookupEntry doc key = some e →
    e.areas.length ≤ n
  ∧ List.Pairwise (fun x y : String × Int => y.2 ≤ x.2) e.areas
  ∧ ∃ items, ((e.pref, e.city), items) ∈ buildCityMap (ingest st kp files).bucket
      ∧ e.areas = (sortDesc items).take n
      ∧ ∀ p : Int, e.areas.filter (fun x => decide (x.2 = p)) <+: items.filter (fun x => decide (x.2 = p)) := by
  intro st kp n files doc key e hrm hlk
  have hdoc : doc = buildOut n (buildCityMap (ingest st kp files).bucket) := by
    simp only [runMain] at hrm
    by_cases h1 : files = []
    · rw [if_pos h1] at hrm; cases hrm
    · rw [if_neg h1] at hrm
      by_cases h2 : (ingest st kp files).used = 0
      · rw [if_pos h2] at hrm; cases hrm
      · rw [if_neg h2] at hrm
        injection hrm with h
        exact h.symm
  subst hdoc
  rw [buildOut] at hlk
  rcases buildOut_mem n (buildCityMap (ingest st kp files).bucket) [] key e hlk with h' | ⟨g, hg, hkey, he⟩
  · cases h'
  · subst he
    refine ⟨?_, ?_, g.2, ?_, rfl, ?_⟩
    · exact List.length_take_le n (sortDesc g.2)
    · exact (sortDesc_pairwise g.2).sublist (List.take_sublist n (sortDesc g.2))
    · exact hg
    · intro p
      have hpre := List.take_prefix n (sortDesc g.2)
      have h1 : ((sortDesc g.2).take n).filter (fun x => decide (x.2 = p))
          <+: (sortDesc g.2).filter (fun x => decide (x.2 = p)) :=
        hpre.filter _
      rw [sortDesc_filter] at h1
      exact h1

/-- C4 witness: the concrete Kumagaya run's single entry satisfies the
three properties. -/
theorem claim_C4_witness :
    c1Entry.areas.length ≤ 10
  ∧ List.Pairwise (fun x y : String × Int => y.2 ≤ x.2) c1Entry.areas
  ∧ ∃ items, ((c1Entry.pref, c1Entry.city), items) ∈ buildCityMap (ingest true false [c1File ("字")]).bucket
      ∧ c1Entry.areas = (sortDesc items).take 10
      ∧ ∀ p : Int, c1Entry.areas.filter (fun x => decide (x.2 = p)) <+: items.filter (fun x => decide (x.2 = p)) :=
  claim_C4 true false 10 [c1File ("字")] c1Doc ("Saitama::Kumagaya-shi") c1Entry rfl rfl

/-- C10: when two distinct (prefecture, municipality) pairs flatten to
the same composite "prefecture::municipality" string, the output
document holds a single entry under that key, carrying only the
later-emitted pair's data; the earlier entry is silently overwritten. -/
theorem claim_C10 : ∀ (p1 c1v p2 c2v : String) (i1 i2 : List (String × Int)) (n : Nat),
    (p1, c1v) ≠ (p2, c2v) →
    p1 ++ "::" ++ c1v = p2 ++ "::" ++ c2v →
    buildOut n [((p1, c1v), i1), ((p2, c2v), i2)]
      = [(p2 ++ "::" ++ c2v, ⟨p2, c2v, (sortDesc i2).take n⟩)] := by
  intro p1 c1v p2 c2v i1 i2 n hne he
  simp only [buildOut, List.foldl_cons, List.foldl_nil]
  simp [outInsert, he]

/-- C10 witness: "a::b" / "c" collides with "a" / "b::c" on composite
key "a::b::c"; only the later pair's entry remains. -/
theorem claim_C10_witness :
    buildOut 5 [(("a::b", "c"), []), (("a", "b::c"), [])]
      = [("a" ++ "::" ++ "b::c", ⟨"a", "b::c", (sortDesc []).take 5⟩)] :=
  claim_C10 ("a::b") ("c") ("a") ("b::c") [] [] 5 (by decide) (by decide)

theorem headNotWsB_dropWhile (l : List Char) : headNotWsB (l.dropWhile isPySpace) = true := by
  induction l with
  | nil => rfl
  | cons c cs ih =>
    cases h : isPySpace c with
    | true => simpa [List.dropWhile, h] using ih
    | false => simp [List.dropWhile, h, headNotWsB]

theorem lastNotWsB_dropTrailWs (l : List Char) : lastNotWsB (dropTrailWs l) = true := by
  induction l with
  | nil => rfl
  | cons c cs ih =>
    simp only [dropTrailWs]
    cases hr : dropTrailWs cs with
    | nil =>
      cases h : isPySpace c with
      | true => simp [h, lastNotWsB]
      | false => simp [h, lastNotWsB]
    | cons d t =>
      rw [hr] at ih
      exact ih

theorem dropTrailWs_headNotWs (l : List Char) (h : headNotWsB l = true) :
    headNotWsB (dropTrailWs l) = true := by
  cases l with
  | nil => rfl
  | cons c cs =>
    simp only [dropTrailWs]
    cases hr : dropTrailWs cs with
    | nil =>
      cases hc : isPySpace c with
      | true => simp [hc, headNotWsB]
      | false => simp [hc, headNotWsB]
    | cons d t =>
      exact h

theorem headNotWsB_pyStripChars (l : List Char) : headNotWsB (pyStripChars l) = true :=
  dropTrailWs_headNotWs _ (headNotWsB_dropWhile l)

theorem lastNotWsB_pyStripChars (l : List Char) : lastNotWsB (pyStripChars l) = true :=
  lastNotWsB_dropTrailWs _

theorem dropWhile_eq_self_of_headNotWs (l : List Char) (h : headNotWsB l = true) :
    l.dropWhile isPySpace = l := by
  cases l with
  | nil => rfl
  | cons c cs =>
    simp only [headNotWsB, Bool.not_eq_true'] at h
    simp [List.dropWhile, h]

theorem dropTrailWs_eq_self_of_lastNotWs (l : List Char) (h : lastNotWsB l = true) :
    dropTrailWs l = l := by
  induction l with
  | nil => rfl
  | cons c cs ih =>
    cases cs with
    | nil =>
      simp only [lastNotWsB, Bool.not_eq_true'] at h
      simp [dropTrailWs, h]
    | cons d t =>
      simp only [lastNotWsB] at h
      have hthis := ih h
      have hstep : dropTrailWs (c :: d :: t)
          = match dropTrailWs (d :: t) with
            | [] => if isPySpace c then [] else [c]
            | r => c :: r := rfl
      rw [hstep, hthis]

theorem pyStripChars_idem (l : List Char) : pyStripChars (pyStripChars l) = pyStripChars l := by
  show pyStripChars (pyStripChars l) = pyStripChars l
  rw [pyStripChars]
  rw [dropWhile_eq_self_of_headNotWs _ (headNotWsB_pyStripChars l)]
  rw [dropTrailWs_eq_self_of_lastNotWs _ (lastNotWsB_pyStripChars l)]

theorem mk_data (y : String) : String.mk y.data = y := rfl

theorem data_mk (l : List Char) : (String.mk l).data = l := rfl

theorem pyStrip_idem (x : String) : pyStrip (pyStrip x) = pyStrip x := by
  simp only [pyStrip, data_mk, pyStripChars_idem]

theorem pyStrip_empty : pyStrip ("") = "" := rfl

theorem sStr_idem (x : String) : sStr (sStr x) = sStr x := by
  by_cases h : pyStrip x = "-" ∨ pyStrip x = "—" ∨ pyStrip x = "ｰ"
  · have hx : sStr x = "" := by
      simp only [sStr]
      rw [if_pos h]
    rw [hx]
    decide
  · have hx : sStr x = pyStrip x := by
      simp only [sStr]
      rw [if_neg h]
    rw [hx]
    simp only [sStr, pyStrip_idem]
    rw [if_neg h]

theorem s_absorb (v : Option String) : s (some (s v)) = s v := by
  cases v with
  | none => rfl
  | some x => exact sStr_idem x

/-- C7: the population parser to_int is a total function into the
integers (no exception path in the model): missing values, empty
strings and lone dash glyphs resolve to 0; comma thousands-separators
are removed; values with decimal points are truncated toward zero;
unparseable values resolve to 0; and pre-normalising the input through
s() never changes the result (the missing/dash path is absorbed). -/
theorem claim_C7 :
    to_int none = 0
  ∧ to_int (some ("")) = 0
  ∧ to_int (some ("-")) = 0 ∧ to_int (some ("—")) = 0 ∧ to_int (some ("ｰ")) = 0
  ∧ to_int (some ("33,520")) = 33520 ∧ to_int (some ("1,234,567")) = 1234567
  ∧ to_int (some ("12.9")) = 12 ∧ to_int (some ("-7.9")) = -7 ∧ to_int (some ("3.0")) = 3
  ∧ to_int (some ("2.5e2")) = 250
  ∧ to_int (some ("abc")) = 0 ∧ to_int (some ("12a")) = 0 ∧ to_int (some ("総数")) = 0
  ∧ (∀ v : Option String, to_int (some (s v)) = to_int v) := by
  refine ⟨by decide, by decide, by decide, by decide, by decide, by decide, by decide,
    by decide, by decide, by decide, by decide, by decide, by decide, by decide, ?_⟩
  intro v
  show toIntOfStr (s (some (s v))) = toIntOfStr (s v)
  rw [s_absorb]

theorem collapseGo_cons (b : Bool) (c : Char) (cs : List Char) :
    collapseGo b (c :: cs)
      = if isPySpace c then (if b then collapseGo true cs else ' ' :: collapseGo true cs)
        else c :: collapseGo false cs := rfl

theorem collapseGo_true_head : ∀ l : List Char, headNotWsB (collapseGo true l) = true := by
  intro l
  induction l with
  | nil => rfl
  | cons c cs ih =>
    rw [collapseGo_cons]
    cases hc : isPySpace c with
    | true => simpa [hc] using ih
    | false => simp [hc, headNotWsB]

theorem noTwoWs_collapseGo : ∀ (l : List Char) (b : Bool), noTwoWs (collapseGo b l) = true := by
  intro l
  induction l with
  | nil => intro b; rfl
  | cons c cs ih =>
    intro b
    rw [collapseGo_cons]
    cases hc : isPySpace c with
    | true =>
      cases b with
      | true => simpa [hc] using ih true
      | false =>
        simp only [hc, if_pos, Bool.false_eq_true, if_false]
        have h1 := collapseGo_true_head cs
        have h2 := ih true
        cases hm : collapseGo true cs with
        | nil => decide
        | cons d t =>
          rw [hm] at h1 h2
          simp only [noTwoWs, Bool.and_eq_true]
          simp only [headNotWsB, Bool.not_eq_true'] at h1
          exact ⟨by simp [h1], h2⟩
    | false =>
      simp only [hc, Bool.false_eq_true, if_false]
      have h2 := ih false
      cases hm : collapseGo false cs with
      | nil => simp [noTwoWs]
      | cons d t =>
        rw [hm] at h2
        simp only [noTwoWs, Bool.and_eq_true]
        exact ⟨by simp [hc], h2⟩

theorem noTwoWs_tail (c : Char) (l : List Char) (h : noTwoWs (c :: l) = true) :
    noTwoWs l = true := by
  cases l with
  | nil => rfl
  | cons d t =>
    simp only [noTwoWs, Bool.and_eq_true] at h
    exact h.2

theorem noTwoWs_dropWhile : ∀ l : List Char, noTwoWs l = true →
    noTwoWs (l.dropWhile isPySpace) = true := by
  intro l
  induction l with
  | nil => intro h; exact h
  | cons c cs ih =>
    intro h
    cases hc : isPySpace c with
    | true =>
      rw [List.dropWhile_cons]
      simp only [hc, if_pos]
      exact ih (noTwoWs_tail c cs h)
    | false =>
      rw [List.dropWhile_cons]
      simp only [hc, Bool.false_eq_true, if_false]
      exact h

theorem dropTrailWs_cons (c : Char) (cs : List Char) :
    dropTrailWs (c :: cs)
      = match dropTrailWs cs with
        | [] => if isPySpace c then [] else [c]
        | r => c :: r := rfl

theorem dropTrailWs_headq : ∀ l : List Char,
    dropTrailWs l = [] ∨ (dropTrailWs l).head? = l.head? := by
  intro l
  cases l with
  | nil => exact Or.inl rfl
  | cons c cs =>
    rw [dropTrailWs_cons]
    cases hr : dropTrailWs cs with
    | nil =>
      cases hc : isPySpace c with
      | true => exact Or.inl (by simp [hc])
      | false => exact Or.inr (by simp [hc])
    | cons d t => exact Or.inr rfl

theorem noTwoWs_dropTrailWs : ∀ l : List Char, noTwoWs l = true →
    noTwoWs (dropTrailWs l) = true := by
  intro l
  induction l with
  | nil => intro h; exact h
  | cons c cs ih =>
    intro h
    rw [dropTrailWs_cons]
    cases hr : dropTrailWs cs with
    | nil =>
      cases hc : isPySpace c with
      | true => simp [hc, noTwoWs]
      | false => simp [hc, noTwoWs]
    | cons d t =>
      have htail : noTwoWs (d :: t) = true := by
        have hx := ih (noTwoWs_tail c cs h)
        rwa [hr] at hx
      have hhd : cs.head? = some d := by
        rcases dropTrailWs_headq cs with hnil | hph
        · rw [hnil] at hr; cases hr
        · rw [hr] at hph; exact hph.symm
      cases cs with
      | nil => cases hhd
      | cons e cs2 =>
        have he : e = d := by
          simpa using hhd
        subst he
        simp only [noTwoWs, Bool.and_eq_true] at h ⊢
        exact ⟨h.1, htail⟩

theorem wsNormalize_data (x : String) :
    (wsNormalize x).data = pyStripChars (collapseGo false x.data) := rfl

theorem wsNormalize_noTwoWs (x : String) : noTwoWs (wsNormalize x).data = true := by
  rw [wsNormalize_data, pyStripChars]
  exact noTwoWs_dropTrailWs _ (noTwoWs_dropWhile _ (noTwoWs_collapseGo x.data false))

theorem wsNormalize_head (x : String) : headNotWsB (wsNormalize x).data = true := by
  rw [wsNormalize_data]
  exact headNotWsB_pyStripChars _

theorem wsNormalize_last (x : String) : lastNotWsB (wsNormalize x).data = true := by
  rw [wsNormalize_data]
  exact lastNotWsB_pyStripChars _

theorem dropTrailWs_eq_nil : ∀ l : List Char, dropTrailWs l = [] →
    ∀ c ∈ l, isPySpace c = true := by
  intro l
  induction l with
  | nil => intro _ c hc; cases hc
  | cons c0 cs ih =>
    intro h c hc
    rw [dropTrailWs_cons] at h
    cases hr : dropTrailWs cs with
    | nil =>
      rw [hr] at h
      cases hc0 : isPySpace c0 with
      | true =>
        rcases List.mem_cons.mp hc with rfl | hmem
        · exact hc0
        · exact ih hr c hmem
      | false =>
        rw [hc0] at h
        simp at h
    | cons d t =>
      rw [hr] at h
      exact absurd h (List.cons_ne_nil _ _)

theorem allWs_of_dropWhile : ∀ l : List Char,
    (∀ d ∈ l.dropWhile isPySpace, isPySpace d = true) → ∀ c ∈ l, isPySpace c = true := by
  intro l
  induction l with
  | nil => intro _ c hc; cases hc
  | cons a t ih =>
    intro h c hc
    rw [List.dropWhile_cons] at h
    cases ha : isPySpace a with
    | true =>
      rw [ha] at h
      simp only [if_pos] at h
      rcases List.mem_cons.mp hc with rfl | hmem
      · exact ha
      · exact ih h c hmem
    | false =>
      rw [ha] at h
      simp only [Bool.false_eq_true, if_false] at h
      exact h c hc

theorem pyStripChars_eq_nil (l : List Char) (h : pyStripChars l = []) :
    ∀ c ∈ l, isPySpace c = true :=
  allWs_of_dropWhile l (dropTrailWs_eq_nil _ h)

theorem collapseGo_exists : ∀ (l : List Char) (b : Bool),
    (∃ c ∈ l, isPySpace c = false) → ∃ c ∈ collapseGo b l, isPySpace c = false := by
  intro l
  induction l with
  | nil => intro b h; simp at h
  | cons c cs ih =>
    intro b h
    rw [collapseGo_cons]
    cases hc : isPySpace c with
    | false =>
      refine ⟨c, ?_, hc⟩
      simp [hc]
    | true =>
      have h' : ∃ d ∈ cs, isPySpace d = false := by
        rcases h with ⟨d, hd, hdw⟩
        rcases List.mem_cons.mp hd with rfl | hd'
        · rw [hc] at hdw; cases hdw
        · exact ⟨d, hd', hdw⟩
      rcases ih true h' with ⟨d, hd, hdw⟩
      cases b with
      | true =>
        refine ⟨d, ?_, hdw⟩
        simp only [hc, if_pos]
        exact hd
      | false =>
        refine ⟨d, ?_, hdw⟩
        simp only [hc, if_pos, Bool.false_eq_true, if_false]
        exact List.mem_cons_of_mem _ hd

theorem data_eq_nil (y : String) : y = "" ↔ y.data = [] := by
  constructor
  · intro h; rw [h]
  · intro h
    have h2 := congrArg String.mk h
    rw [mk_data] at h2
    exact h2

theorem wsNormalize_ne_empty (x : String) (hex : ∃ c ∈ x.data, isPySpace c = false) :
    wsNormalize x ≠ "" := by
  intro heq
  have hdat : (wsNormalize x).data = [] := (data_eq_nil _).mp heq
  rw [wsNormalize_data] at hdat
  rcases collapseGo_exists x.data false hex with ⟨c, hc, hcw⟩
  have := pyStripChars_eq_nil _ hdat c hc
  rw [this] at hcw
  cases hcw

theorem pyStrip_fix_sStr (x : String) : pyStrip (sStr x) = sStr x := by
  simp only [sStr]
  by_cases h : pyStrip x = "-" ∨ pyStrip x = "—" ∨ pyStrip x = "ｰ"
  · rw [if_pos h]
    decide
  · rw [if_neg h]
    exact pyStrip_idem x

theorem pyStrip_fix_stripLeadToken (tok x : String) (h : pyStrip x = x) :
    pyStrip (stripLeadToken tok x) = stripLeadToken tok x := by
  simp only [stripLeadToken]
  by_cases hp : charsPrefix tok.data x.data = true
  · rw [if_pos hp]
    exact pyStrip_idem _
  · rw [if_neg hp]
    exact h

theorem pyStrip_fix_fragA (x : String) (st : Bool) : pyStrip (fragA x st) = fragA x st := by
  cases st with
  | true =>
    exact pyStrip_fix_stripLeadToken ("字") _
      (pyStrip_fix_stripLeadToken ("大字") _ (pyStrip_fix_sStr x))
  | false => exact pyStrip_fix_sStr x

theorem pyStrip_fix_fragB (x : String) (st : Bool) : pyStrip (fragB x st) = fragB x st := by
  cases st with
  | true => exact pyStrip_fix_stripLeadToken ("字") _ (pyStrip_fix_sStr x)
  | false => exact pyStrip_fix_sStr x

theorem headNotWs_of_fix (y : String) (hfix : pyStrip y = y) : headNotWsB y.data = true := by
  have hdata : y.data = pyStripChars y.data := congrArg String.data hfix.symm
  rw [hdata]
  exact headNotWsB_pyStripChars _

theorem lastNotWs_of_fix (y : String) (hfix : pyStrip y = y) : lastNotWsB y.data = true := by
  have hdata : y.data = pyStripChars y.data := congrArg String.data hfix.symm
  rw [hdata]
  exact lastNotWsB_pyStripChars _

theorem exists_nonWs_of_ne (y : String) (hfix : pyStrip y = y) (hne : y ≠ "") :
    ∃ c ∈ y.data, isPySpace c = false := by
  have hd := headNotWs_of_fix y hfix
  have hnil : y.data ≠ [] := fun hl => hne ((data_eq_nil y).mpr hl)
  cases hy : y.data with
  | nil => exact absurd hy hnil
  | cons c t =>
    rw [hy] at hd
    simp only [headNotWsB, Bool.not_eq_true'] at hd
    exact ⟨c, List.mem_cons_self c t, hd⟩

theorem headNotWs_append (l1 l2 : List Char) (h1 : headNotWsB l1 = true) (hne : l1 ≠ []) :
    headNotWsB (l1 ++ l2) = true := by
  cases l1 with
  | nil => exact absurd rfl hne
  | cons c t => exact h1

theorem lastNotWsB_cons_ne (c : Char) (m : List Char) (hne : m ≠ []) :
    lastNotWsB (c :: m) = lastNotWsB m := by
  cases m with
  | nil => exact absurd rfl hne
  | cons d t => rfl

theorem lastNotWs_append (l1 l2 : List Char) (h2 : lastNotWsB l2 = true) (hne : l2 ≠ []) :
    lastNotWsB (l1 ++ l2) = true := by
  induction l1 with
  | nil => simpa using h2
  | cons c t ih =>
    have hne2 : t ++ l2 ≠ [] := by
      intro hx
      exact hne (List.append_eq_nil.mp hx).2
    rw [List.cons_append, lastNotWsB_cons_ne c _ hne2]
    exact ih

theorem data_append (a b : String) : (a ++ b).data = a.data ++ b.data := by
  cases a
  cases b
  rfl

theorem pyStrip_join (a' b' : String) (hfa : pyStrip a' = a') (hfb : pyStrip b' = b')
    (ha : a' ≠ "") (hb : b' ≠ "") : pyStrip (a' ++ " " ++ b') = a' ++ " " ++ b' := by
  have hh : headNotWsB ((a' ++ " " ++ b').data) = true := by
    rw [data_append, data_append, List.append_assoc]
    exact headNotWs_append _ _ (headNotWs_of_fix a' hfa) (fun hx => ha ((data_eq_nil a').mpr hx))
  have hl : lastNotWsB ((a' ++ " " ++ b').data) = true := by
    rw [data_append]
    exact lastNotWs_append _ _ (lastNotWs_of_fix b' hfb) (fun hx => hb ((data_eq_nil b').mpr hx))
  show String.mk (pyStripChars (a' ++ " " ++ b').data) = a' ++ " " ++ b'
  rw [pyStripChars, dropWhile_eq_self_of_headNotWs _ hh, dropTrailWs_eq_self_of_lastNotWs _ hl]

theorem fragA_of_sStr_empty (x : String) (st : Bool) (h : sStr x = "") : fragA x st = "" := by
  cases st with
  | true =>
    have hstep : fragA x true = stripLeadToken ("字") (stripLeadToken ("大字") (sStr x)) := rfl
    rw [hstep, h]
    decide
  | false =>
    have hstep : fragA x false = sStr x := rfl
    rw [hstep, h]

theorem fragB_of_sStr_empty (x : String) (st : Bool) (h : sStr x = "") : fragB x st = "" := by
  cases st with
  | true =>
    have hstep : fragB x true = stripLeadToken ("字") (sStr x) := rfl
    rw [hstep, h]
    decide
  | false =>
    have hstep : fragB x false = sStr x := rfl
    rw [hstep, h]

theorem normalize_place_name_eq (a b : String) (st : Bool) (hne : ¬(sStr a = "" ∧ sStr b = "")) :
    normalize_place_name a b st
      = wsNormalize (if fragA a st ≠ "" ∧ fragB b st ≠ ""
          then pyStrip (fragA a st ++ " " ++ fragB b st)
          else if fragA a st ≠ "" then fragA a st else fragB b st) := by
  simp only [normalize_place_name]
  rw [if_neg hne]

/-- C8 (counterexample): with prefix-stripping enabled, the broader
fragment 大字 (the bare honorific marker) is non-empty after
missing/dash normalization, yet normalize_place_name returns the empty
string — so "empty iff both fragments are empty" is false as stated. -/
theorem claim_C8_cex :
    normalize_place_name ("大字") ("") true = "" ∧ sStr ("大字") ≠ "" :=
  ⟨by decide, by decide⟩

/-- C8 (amended): normalize_place_name returns the empty string iff
both fragments are empty AFTER missing/dash normalization and the
optional prefix stripping (with stripping enabled a non-empty fragment
consisting only of the marker 大字 / 字 also reduces to empty);
otherwise it returns the whitespace-collapsed-and-trimmed join of the
two stripped fragments by a single space when both are non-empty, or
of the single non-empty stripped fragment; and in all cases the result
contains no run of more than one whitespace character and no leading
or trailing whitespace. -/
theorem claim_C8 : ∀ (a b : String) (st : Bool),
    (normalize_place_name a b st = "" ↔ (fragA a st = "" ∧ fragB b st = ""))
  ∧ (fragA a st ≠ "" → fragB b st ≠ "" →
      normalize_place_name a b st = wsNormalize (fragA a st ++ " " ++ fragB b st))
  ∧ (fragA a st ≠ "" → fragB b st = "" →
      normalize_place_name a b st = wsNormalize (fragA a st))
  ∧ (fragA a st = "" → fragB b st ≠ "" →
      normalize_place_name a b st = wsNormalize (fragB b st))
  ∧ noTwoWs (normalize_place_name a b st).data = true
  ∧ headNotWsB (normalize_place_name a b st).data = true
  ∧ lastNotWsB (normalize_place_name a b st).data = true := by
  intro a b st
  by_cases hearly : sStr a = "" ∧ sStr b = ""
  · have hra : fragA a st = "" := fragA_of_sStr_empty a st hearly.1
    have hrb : fragB b st = "" := fragB_of_sStr_empty b st hearly.2
    have hres : normalize_place_name a b st = "" := by
      simp only [normalize_place_name]
      rw [if_pos hearly]
    refine ⟨?_, ?_, ?_, ?_, ?_, ?_, ?_⟩
    · rw [hres]
      simp [hra, hrb]
    · intro hfa _
      exact absurd hra hfa
    · intro hfa _
      exact absurd hra hfa
    · intro _ hfb
      exact absurd hrb hfb
    · rw [hres]; decide
    · rw [hres]; decide
    · rw [hres]; decide
  · have hres := normalize_place_name_eq a b st hearly
    by_cases ha : fragA a st = ""
    · by_cases hb : fragB b st = ""
      · have h0 : normalize_place_name a b st = "" := by
          rw [hres, if_neg (by tauto), if_neg (by tauto), hb]
          decide
        refine ⟨?_, ?_, ?_, ?_, ?_, ?_, ?_⟩
        · rw [h0]
          simp [ha, hb]
        · intro hfa _
          exact absurd ha hfa
        · intro hfa _
          exact absurd ha hfa
        · intro _ hfb
          exact absurd hb hfb
        · rw [h0]; decide
        · rw [h0]; decide
        · rw [h0]; decide
      · have h0 : normalize_place_name a b st = wsNormalize (fragB b st) := by
          rw [hres, if_neg (by tauto), if_neg (by tauto)]
        have hnonempty : normalize_place_name a b st ≠ "" := by
          rw [h0]
          exact wsNormalize_ne_empty _ (exists_nonWs_of_ne _ (pyStrip_fix_fragB b st) hb)
        refine ⟨?_, ?_, ?_, ?_, ?_, ?_, ?_⟩
        · exact ⟨fun hc => absurd hc hnonempty, fun hc => absurd hc.2 hb⟩
        · intro hfa _
          exact absurd ha hfa
        · intro hfa _
          exact absurd ha hfa
        · intro _ _
          exact h0
        · rw [h0]; exact wsNormalize_noTwoWs _
        · rw [h0]; exact wsNormalize_head _
        · rw [h0]; exact wsNormalize_last _
    · by_cases hb : fragB b st = ""
      · have h0 : normalize_place_name a b st = wsNormalize (fragA a st) := by
          rw [hres, if_neg (by tauto), if_pos ha]
        have hnonempty : normalize_place_name a b st ≠ "" := by
          rw [h0]
          exact wsNormalize_ne_empty _ (exists_nonWs_of_ne _ (pyStrip_fix_fragA a st) ha)
        refine ⟨?_, ?_, ?_, ?_, ?_, ?_, ?_⟩
        · exact ⟨fun hc => absurd hc hnonempty, fun hc => absurd hc.1 ha⟩
        · intro _ hfb
          exact absurd hb hfb
        · intro _ _
          exact h0
        · intro hfa _
          exact absurd hfa (by simpa using ha)
        · rw [h0]; exact wsNormalize_noTwoWs _
        · rw [h0]; exact wsNormalize_head _
        · rw [h0]; exact wsNormalize_last _
      · have hjoin : pyStrip (fragA a st ++ " " ++ fragB b st) = fragA a st ++ " " ++ fragB b st :=
          pyStrip_join _ _ (pyStrip_fix_fragA a st) (pyStrip_fix_fragB b st) ha hb
        have h0 : normalize_place_name a b st
            = wsNormalize (fragA a st ++ " " ++ fragB b st) := by
          rw [hres, if_pos ⟨ha, hb⟩, hjoin]
        have hnonempty : normalize_place_name a b st ≠ "" := by
          rw [h0]
          apply wsNormalize_ne_empty
          rcases exists_nonWs_of_ne _ (pyStrip_fix_fragA a st) ha with ⟨c, hc, hcw⟩
          refine ⟨c, ?_, hcw⟩
          rw [data_append, data_append]
          exact List.mem_append_left _ (List.mem_append_left _ hc)
        refine ⟨?_, ?_, ?_, ?_, ?_, ?_, ?_⟩
        · exact ⟨fun hc => absurd hc hnonempty, fun hc => absurd hc.1 ha⟩
        · intro _ _
          exact h0
        · intro _ hfb
          exact absurd hfb (by simpa using hb)
        · intro hfa _
          exact absurd hfa (by simpa using ha)
        · rw [h0]; exact wsNormalize_noTwoWs _
        · rw [h0]; exact wsNormalize_head _
        · rw [h0]; exact wsNormalize_last _

/-- C8 witness: a concrete pair with both fragments non-empty after
stripping produces the single-space join, whitespace-normalised. -/
theorem claim_C8_witness :
    normalize_place_name ("大字岩神町") ("3丁目") true
      = wsNormalize (fragA ("大字岩神町") true ++ " " ++ fragB ("3丁目") true) :=
  (claim_C8 ("大字岩神町") ("3丁目") true).2.1 (by decide) (by decide)

/-- C9: in the query tool, for every query with no exact match in the
municipality-name index, the suggestion list is a prefix of the
substring-containment candidates of length at most 20 (all of them
when at most 20 exist), every suggested name is an indexed
municipality name containing the query, not-found is reported exactly
when no candidate exists, and when exactly one indexed name contains
the query the suggestion list is exactly that one name. -/
theorem claim_C9 : ∀ (data : List (String × Entry)) (q : String),
    lookupIdx (buildIndex data) q = none →
    ((∀ l, queryStep data q = QueryOut.suggestions l →
        l.length ≤ 20
      ∧ l <+: candidatesOf data q
      ∧ (∀ c ∈ l, containsStr c q = true ∧ c ∈ (buildIndex data).map (fun e => e.1))
      ∧ ((candidatesOf data q).length ≤ 20 → l = candidatesOf data q))
  ∧ (queryStep data q = QueryOut.notFound ↔ candidatesOf data q = [])
  ∧ (∀ c, candidatesOf data q = [c] → queryStep data q = QueryOut.suggestions [c])) := by
  intro data q h
  have hq : queryStep data q
      = (if candidatesOf data q = [] then QueryOut.notFound
         else QueryOut.suggestions ((candidatesOf data q).take 20)) := by
    simp only [queryStep, candidatesOf]
    rw [h]
  refine ⟨?_, ?_, ?_⟩
  · intro l hl
    rw [hq] at hl
    by_cases hc : candidatesOf data q = []
    · rw [if_pos hc] at hl
      exact absurd hl (by simp)
    · rw [if_neg hc] at hl
      injection hl with h2
      refine ⟨?_, ?_, ?_, ?_⟩
      · rw [← h2]
        exact List.length_take_le 20 _
      · rw [← h2]
        exact List.take_prefix 20 _
      · intro c hcmem
        rw [← h2] at hcmem
        have hcand : c ∈ candidatesOf data q := List.take_subset _ _ hcmem
        exact ⟨(List.mem_filter.mp hcand).2, (List.mem_filter.mp hcand).1⟩
      · intro hlen
        rw [← h2]
        exact List.take_of_length_le hlen
  · rw [hq]
    constructor
    · intro hnf
      by_cases hc : candidatesOf data q = []
      · exact hc
      · rw [if_neg hc] at hnf
        exact absurd hnf (by simp)
    · intro hc
      rw [if_pos hc]
  · intro c hcand
    rw [hq, hcand]
    have hne : ¬([c] : List String) = [] := by simp
    rw [if_neg hne]
    rfl

/-- C9 witness: a one-municipality document, queried with a strict
substring of the name, suggests exactly that name. -/
theorem claim_C9_witness :
    queryStep [("P::熊谷市", ⟨"P", "熊谷市", []⟩)] ("熊谷") = QueryOut.suggestions ["熊谷市"] :=
  (claim_C9 [("P::熊谷市", ⟨"P", "熊谷市", []⟩)] ("熊谷") (by decide)).2.2 ("熊谷市") (by decide)
